import Mathlib

/-!
Shallow embedding of `src/currency_converter.py` (Currency-Convertify).

Python dicts whose keys are currency codes (or pair keys) are modelled as
association lists `List (String × _)` with first-match lookup, which matches
Python dict semantics for the operations the code uses (`in`, `[]`, insertion
order).  Python floats are modelled as exact rationals `ℚ`; Python's
`ZeroDivisionError` on float division by zero is modelled by `Except`.
Timestamps (ISO-8601 strings compared and subtracted as `datetime`s) are
modelled as integer seconds; for the fixed-format strings the code produces,
lexicographic string order agrees with chronological order.
-/

namespace CurrencyConvertify

/-- Errors a modelled operation can raise. -/
inductive PyErr where
  | zeroDivision
  deriving DecidableEq, Repr

/-- Python float division: raises `ZeroDivisionError` when the divisor is 0. -/
def pyDiv (a b : ℚ) : Except PyErr ℚ :=
  if b = 0 then Except.error PyErr.zeroDivision else Except.ok (a / b)

/-- First-match association-list lookup, modelling Python `d[k]` / `k in d`. -/
def dlookup {α : Type} (k : String) : List (String × α) → Option α
  | [] => none
  | (a, v) :: rest => if k = a then some v else dlookup k rest

/-- A Python dict of rates, keyed by currency code. -/
abbrev RateDict := List (String × ℚ)

/-- Config.SUPPORTED_CURRENCIES from the source (code → display name). -/
def SUPPORTED_CURRENCIES : List (String × String) :=
  [("USD", "US Dollar"), ("EUR", "Euro"), ("GBP", "British Pound Sterling"),
   ("JPY", "Japanese Yen"), ("OMR", "Omani Rial"), ("AUD", "Australian Dollar"),
   ("CAD", "Canadian Dollar"), ("CHF", "Swiss Franc"), ("CNY", "Chinese Yuan"),
   ("INR", "Indian Rupee"), ("AED", "UAE Dirham"), ("SAR", "Saudi Riyal"),
   ("KWD", "Kuwaiti Dinar"), ("BHD", "Bahraini Dinar"), ("QAR", "Qatari Riyal"),
   ("NOK", "Norwegian Krone"), ("SEK", "Swedish Krona"), ("DKK", "Danish Krone"),
   ("PLN", "Polish Zloty"), ("CZK", "Czech Koruna")]

/-- Python `k in Config.SUPPORTED_CURRENCIES` (dict key membership). -/
def isSupported (c : String) : Bool :=
  (dlookup c SUPPORTED_CURRENCIES).isSome

/-- Config.CACHE_DURATION (seconds). -/
def CACHE_DURATION : ℤ := 300

/-- Config.MAX_HISTORY_ENTRIES. -/
def MAX_HISTORY_ENTRIES : Nat := 100

/-- ExchangeRateService.fallback_rates from the source. -/
def fallback_rates : RateDict :=
  [("USD", 1.0), ("EUR", 0.8520), ("GBP", 0.7315), ("JPY", 110.25),
   ("OMR", 0.3845), ("AUD", 1.3520), ("CAD", 1.2475), ("CHF", 0.9185),
   ("CNY", 6.4520), ("INR", 74.15), ("AED", 3.6725), ("SAR", 3.7500),
   ("KWD", 0.3015), ("BHD", 0.3770), ("QAR", 3.6400), ("NOK", 8.5200),
   ("SEK", 8.7500), ("DKK", 6.3400), ("PLN", 3.9800), ("CZK", 21.5000)]

/-- State of the rates cache file on disk, as seen by `_load_cache`. -/
inductive CacheFileState where
  | missing
  | malformed
  /-- A JSON object parsed successfully; `timestamp` is the parsed
  `cache['timestamp']` when that key is present and parseable. -/
  | parsed (timestamp : Option ℤ) (rates : RateDict)

/-- ExchangeRateService._load_cache: returns the cache (timestamp and rates)
when the file exists, parses, has a timestamp, and `now - cache_time <
CACHE_DURATION`; otherwise the empty dict, modelled as `none`. -/
def load_cache (f : CacheFileState) (now : ℤ) : Option (ℤ × RateDict) :=
  match f with
  | CacheFileState.missing => none
  | CacheFileState.malformed => none
  | CacheFileState.parsed ts rates =>
    match ts with
    | some t => if now - t < CACHE_DURATION then some (t, rates) else none
    | none => none

/-- The external state a single `get_exchange_rate` call can observe.
`cache` is `rates_cache['rates']` when the loaded cache has a `'rates'` key
(`none` otherwise); `api` is the `'rates'` payload of the first endpoint that
answers 200 with a `'rates'` field (`none` when every endpoint fails);
`forex` / `libConv` are the numeric results of the two optional libraries for
this call (`none` models the library being unavailable, raising, or returning
no usable value). -/
structure Env where
  cache : Option RateDict
  api : Option RateDict
  forex : Option ℚ
  libConv : Option ℚ

/-- ExchangeRateService.get_all_rates (called with the default base 'USD'):
cached rates if present, else the first successful API payload filtered to
supported currencies (also persisted as the new cache, a side effect that does
not affect the returned value), else a copy of the static fallback table. -/
def get_all_rates (env : Env) : RateDict :=
  match env.cache with
  | some r => r
  | none =>
    match env.api with
    | some rates => rates.filter (fun kv => isSupported kv.1)
    | none => fallback_rates

/-- ExchangeRateService._get_fallback_rate: cross rate from the static table,
with the `except (KeyError, ZeroDivisionError)` clause returning 1.0. -/
def get_fallback_rate (from_currency to_currency : String) : ℚ :=
  match dlookup from_currency fallback_rates, dlookup to_currency fallback_rates with
  | some from_rate, some to_rate =>
      if from_rate = 0 then 1 else to_rate / from_rate
  | _, _ => 1

/-- The `currency-converter` library tier of `get_exchange_rate`: use the
library's result when it is a usable positive number, else fall back to
`_get_fallback_rate` (which always returns). -/
def converter_tier (env : Env) (from_currency to_currency : String) : Except PyErr ℚ :=
  match env.libConv with
  | some r => if 0 < r then Except.ok r
              else Except.ok (get_fallback_rate from_currency to_currency)
  | none => Except.ok (get_fallback_rate from_currency to_currency)

/-- The `forex-python` library tier of `get_exchange_rate` (`if rate and rate
> 0: return float(rate)`), falling through to the next tier otherwise. -/
def forex_tier (env : Env) (from_currency to_currency : String) : Except PyErr ℚ :=
  match env.forex with
  | some r => if 0 < r then Except.ok r else converter_tier env from_currency to_currency
  | none => converter_tier env from_currency to_currency

/-- ExchangeRateService.get_exchange_rate, line by line: identity for equal
codes; then the USD-based cross-rate formulas over `get_all_rates()`; then the
two optional libraries; then `_get_fallback_rate`.  The two division sites are
Python float divisions and can raise `ZeroDivisionError`. -/
def get_exchange_rate (env : Env) (from_currency to_currency : String) :
    Except PyErr ℚ :=
  if from_currency = to_currency then Except.ok 1
  else
    let all_rates := get_all_rates env
    if from_currency = "USD" ∧ (dlookup to_currency all_rates).isSome then
      Except.ok ((dlookup to_currency all_rates).getD 0)
    else if to_currency = "USD" ∧ (dlookup from_currency all_rates).isSome then
      pyDiv 1 ((dlookup from_currency all_rates).getD 0)
    else if (dlookup from_currency all_rates).isSome ∧
            (dlookup to_currency all_rates).isSome then
      pyDiv ((dlookup to_currency all_rates).getD 0)
            ((dlookup from_currency all_rates).getD 0)
    else
      forex_tier env from_currency to_currency

/-- convert_currency's `converted_amount = amount * exchange_rate`. -/
def converted_amount (amount exchange_rate : ℚ) : ℚ := amount * exchange_rate

/-- A conversion record as stored in the history (the fields the code reads;
`timestamp` in integer seconds). -/
structure ConversionRecord where
  amount : ℚ
  from_currency : String
  to_currency : String
  exchange_rate : ℚ
  converted_amount : ℚ
  timestamp : ℤ
  deriving DecidableEq, Repr

/-- ConversionHistory.add_conversion: append, then truncate to the most recent
`MAX_HISTORY_ENTRIES` (Python `self.history[-100:]`). The save to disk is a
side effect that does not change the in-memory log. -/
def add_conversion (history : List ConversionRecord) (r : ConversionRecord) :
    List ConversionRecord :=
  let h := history ++ [r]
  if MAX_HISTORY_ENTRIES < h.length then h.drop (h.length - MAX_HISTORY_ENTRIES) else h

/-- ConversionHistory.get_recent_history: `self.history[-limit:] if
self.history else []`.  Note Python's `-0 == 0`, so `history[-0:]` is the
whole list. -/
def get_recent_history (history : List ConversionRecord) (limit : Nat) :
    List ConversionRecord :=
  if history = [] then []
  else if limit = 0 then history
  else history.drop (history.length - limit)

/-- ConversionHistory.clear_history: sets `self.history = []` and returns the
result of saving the (now empty) log; `saveOk` models whether
`DataManager.save_json_file` succeeds.  Result: (new in-memory log, returned
boolean). -/
def clear_history (history : List ConversionRecord) (saveOk : Bool) :
    List ConversionRecord × Bool :=
  (([] : List ConversionRecord), saveOk)

/-- A mutation of the history store, for stating the length invariant. -/
inductive HistoryOp where
  | add (r : ConversionRecord)
  | clear

/-- Apply one history mutation to the in-memory log. -/
def applyOp (h : List ConversionRecord) : HistoryOp → List ConversionRecord
  | HistoryOp.add r => add_conversion h r
  | HistoryOp.clear => (clear_history h true).1

/-- Apply a sequence of history mutations. -/
def applyOps (h : List ConversionRecord) (ops : List HistoryOp) :
    List ConversionRecord :=
  ops.foldl applyOp h

/-- The `f"{from}/{to}"` grouping key of get_currency_trends. -/
def pairKey (c : ConversionRecord) : String :=
  c.from_currency ++ "/" ++ c.to_currency

/-- The `{'rate': ..., 'time': ...}` entries collected per pair. -/
structure RatePoint where
  rate : ℚ
  time : ℤ
  deriving DecidableEq, Repr

/-- The rate/time point taken from a conversion record. -/
def toPoint (c : ConversionRecord) : RatePoint :=
  { rate := c.exchange_rate, time := c.timestamp }

/-- One step of building the `currency_rates` dict: append the point to the
pair's list if the key exists, else add the key at the end (Python dicts keep
insertion order). -/
def addPoint (groups : List (String × List RatePoint)) (p : String)
    (pt : RatePoint) : List (String × List RatePoint) :=
  match groups with
  | [] => [(p, [pt])]
  | (k, pts) :: rest =>
    if k = p then (k, pts ++ [pt]) :: rest else (k, pts) :: addPoint rest p pt

/-- The `currency_rates` dict built by the grouping loop of
get_currency_trends. -/
def groupRates (recs : List ConversionRecord) : List (String × List RatePoint) :=
  recs.foldl (fun g c => addPoint g (pairKey c) (toPoint c)) []

/-- Stable insertion used by `sortPoints`: the new point goes after every
point with a strictly smaller time and before the first point with an equal
or larger time. -/
def insertPoint (pt : RatePoint) : List RatePoint → List RatePoint
  | [] => [pt]
  | q :: qs => if q.time < pt.time then q :: insertPoint pt qs else pt :: q :: qs

/-- `rates.sort(key=lambda x: x['time'])`: Python's sort is a stable sort on
the key, so its output is the unique time-sorted permutation that preserves
the relative order of equal-time points; `sortPoints` computes it by stable
insertion. -/
def sortPoints : List RatePoint → List RatePoint
  | [] => []
  | pt :: pts => insertPoint pt (sortPoints pts)

/-- `rates[0]['rate']` after the sort (0 when the list is empty; the code only
evaluates this on lists of length ≥ 2). -/
def oldestRate (pts : List RatePoint) : ℚ :=
  ((sortPoints pts).head?.getD { rate := 0, time := 0 }).rate

/-- `rates[-1]['rate']` after the sort. -/
def newestRate (pts : List RatePoint) : ℚ :=
  ((sortPoints pts).getLast?.getD { rate := 0, time := 0 }).rate

/-- `change_percent = ((newest_rate - oldest_rate) / oldest_rate) * 100`,
before rounding. -/
def rawChange (pts : List RatePoint) : ℚ :=
  (newestRate pts - oldestRate pts) / oldestRate pts * 100

/-- Python `round(x, 2)` on exact values: round half to even at the second
decimal. -/
def pyRound2 (x : ℚ) : ℚ :=
  let y := x * 100
  let f : ℤ := ⌊y⌋
  let frac := y - (f : ℚ)
  (if frac < 1/2 then (f : ℚ)
   else if 1/2 < frac then ((f + 1 : ℤ) : ℚ)
   else if f % 2 = 0 then (f : ℚ) else ((f + 1 : ℤ) : ℚ)) / 100

/-- The trend summary stored per pair. -/
structure TrendData where
  change_percent : ℚ
  direction : String
  oldest_rate : ℚ
  newest_rate : ℚ
  data_points : Nat
  deriving DecidableEq, Repr

/-- The per-pair body of the trends loop: sort by time, take oldest and
newest, divide (raising `ZeroDivisionError` when the oldest rate is 0),
classify the direction, round the stored percentage. -/
def trendOfPoints (pts : List RatePoint) : Except PyErr TrendData :=
  if oldestRate pts = 0 then Except.error PyErr.zeroDivision
  else
    Except.ok
      { change_percent := pyRound2 (rawChange pts),
        direction :=
          if 1 < rawChange pts then "rising"
          else if rawChange pts < -1 then "falling"
          else "stable",
        oldest_rate := oldestRate pts,
        newest_rate := newestRate pts,
        data_points := pts.length }

/-- The `for pair, rates in currency_rates.items()` loop: groups of length
≥ 2 produce a trend entry (any `ZeroDivisionError` aborts the whole call),
smaller groups are skipped. -/
def trendsOf : List (String × List RatePoint) →
    Except PyErr (List (String × TrendData))
  | [] => Except.ok []
  | (p, pts) :: rest =>
    if 2 ≤ pts.length then
      match trendOfPoints pts with
      | Except.error e => Except.error e
      | Except.ok td =>
        match trendsOf rest with
        | Except.error e => Except.error e
        | Except.ok ts => Except.ok ((p, td) :: ts)
    else trendsOf rest

/-- The in-window filter of get_currency_trends: records whose timestamp is at
least `now - days` days (`timedelta(days=days)` = `days * 86400` seconds). -/
def recentOf (history : List ConversionRecord) (now days : ℤ) :
    List ConversionRecord :=
  history.filter (fun c => decide (now - days * 86400 ≤ c.timestamp))

/-- ConversionHistory.get_currency_trends: empty dict for an empty history or
fewer than 2 in-window records, otherwise group the in-window records by pair
and analyze each group of length ≥ 2. -/
def get_currency_trends (history : List ConversionRecord) (now days : ℤ) :
    Except PyErr (List (String × TrendData)) :=
  if history = [] then Except.ok []
  else
    let recent := recentOf history now days
    if recent.length < 2 then Except.ok []
    else trendsOf (groupRates recent)

/-- The points of one currency pair among a record list, in list order: the
list the grouping loop accumulates under key `p` (proved below as
`dlookup_groupRates`). -/
def pairPointsOf (recs : List ConversionRecord) (p : String) : List RatePoint :=
  (recs.filter (fun c => decide (pairKey c = p))).map toPoint

/-- The in-window points of one currency pair. -/
def pairPoints (history : List ConversionRecord) (now days : ℤ) (p : String) :
    List RatePoint :=
  pairPointsOf (recentOf history now days) p

/-- The trend summary the loop stores for a group of points whose oldest rate
is nonzero (the `Except.ok` payload of `trendOfPoints`). -/
def trendPayload (pts : List RatePoint) : TrendData :=
  { change_percent := pyRound2 (rawChange pts),
    direction :=
      if 1 < rawChange pts then "rising"
      else if rawChange pts < -1 then "falling"
      else "stable",
    oldest_rate := oldestRate pts,
    newest_rate := newestRate pts,
    data_points := pts.length }

/-! ### Concrete states used in witnesses and counterexamples -/

/-- A concrete conversion record used in witnesses and counterexamples. -/
def sampleRec : ConversionRecord :=
  { amount := 100, from_currency := "USD", to_currency := "EUR",
    exchange_rate := 0.852, converted_amount := 85.2, timestamp := 0 }

/-- No usable cache, every endpoint fails, both libraries unavailable. -/
def envNoNet : Env :=
  { cache := none, api := none, forex := none, libConv := none }

/-- A valid (fresh) cache whose rate table maps EUR to 0. -/
def envZeroEUR : Env :=
  { cache := some [("EUR", 0)], api := none, forex := none, libConv := none }

/-- No usable cache, every endpoint fails, but the forex-python library
answers 2 for the requested pair. -/
def envLibOnly : Env :=
  { cache := none, api := none, forex := some 2, libConv := none }

/-- Two in-window USD/EUR conversions at rates 0.85 (older) and 0.80
(newer). -/
def histTrendW : List ConversionRecord :=
  [{ amount := 100, from_currency := "USD", to_currency := "EUR",
     exchange_rate := 0.85, converted_amount := 85, timestamp := 0 },
   { amount := 100, from_currency := "USD", to_currency := "EUR",
     exchange_rate := 0.80, converted_amount := 80, timestamp := 3600 }]

/-- Two in-window USD/EUR conversions whose oldest rate is 0. -/
def histZeroOldest : List ConversionRecord :=
  [{ amount := 100, from_currency := "USD", to_currency := "EUR",
     exchange_rate := 0, converted_amount := 0, timestamp := 0 },
   { amount := 100, from_currency := "USD", to_currency := "EUR",
     exchange_rate := 1, converted_amount := 100, timestamp := 3600 }]

end CurrencyConvertify

deriving instance DecidableEq for Except

namespace CurrencyConvertify

/-! ### Generic association-list lemmas -/

lemma dlookup_mem {α : Type} {k : String} {v : α} :
    ∀ {l : List (String × α)}, dlookup k l = some v → (k, v) ∈ l := by
  intro l
  induction l with
  | nil => intro h; simp [dlookup] at h
  | cons e rest ih =>
    intro h
    rw [dlookup] at h
    split at h
    · rename_i heq
      cases h
      subst heq
      exact List.mem_cons_self _ _
    · exact List.mem_cons_of_mem _ (ih h)

lemma dlookup_eq_none {α : Type} {k : String} :
    ∀ {l : List (String × α)}, k ∉ l.map Prod.fst → dlookup k l = none := by
  intro l
  induction l with
  | nil => intro _; rfl
  | cons e rest ih =>
    intro h
    rw [dlookup]
    simp only [List.map_cons, List.mem_cons] at h
    push_neg at h
    rw [if_neg h.1]
    exact ih h.2

lemma dlookup_of_mem_nodup {α : Type} {k : String} {v : α} :
    ∀ {l : List (String × α)}, (l.map Prod.fst).Nodup → (k, v) ∈ l →
      dlookup k l = some v := by
  intro l
  induction l with
  | nil => intro _ h; simp at h
  | cons e rest ih =>
    obtain ⟨a, w⟩ := e
    intro hnd hm
    simp only [List.map_cons, List.nodup_cons] at hnd
    rw [dlookup]
    rcases List.mem_cons.mp hm with heq | hmem
    · rw [Prod.mk.injEq] at heq
      rw [if_pos heq.1, heq.2]
    · by_cases hka : k = a
      · exfalso
        apply hnd.1
        subst hka
        exact List.mem_map_of_mem Prod.fst hmem
      · rw [if_neg hka]
        exact ih hnd.2 hmem

/-! ### Fallback-table facts -/

lemma fallback_rates_pos : ∀ p ∈ fallback_rates, (0 : ℚ) < p.2 := by
  with_unfolding_all decide

lemma dlookup_fallback_pos {k : String} {v : ℚ}
    (h : dlookup k fallback_rates = some v) : 0 < v :=
  fallback_rates_pos _ (dlookup_mem h)

lemma dlookup_fallback_usd : dlookup "USD" fallback_rates = some 1 := by
  with_unfolding_all decide

/-! ### Rate-resolver lemmas -/

lemma get_all_rates_offline {env : Env} (hc : env.cache = none)
    (ha : env.api = none) : get_all_rates env = fallback_rates := by
  unfold get_all_rates
  rw [hc, ha]

lemma forex_tier_ok (env : Env) (f t : String) :
    ∃ q, forex_tier env f t = Except.ok q := by
  unfold forex_tier converter_tier
  repeat' split
  all_goals exact ⟨_, rfl⟩

/-- With no usable cache and no endpoint answer, `get_all_rates` is the static
fallback table, so `get_exchange_rate` resolves any pair of currencies present
in that table by the cross-rate formula over the fallback table itself. -/
lemma cross_of_offline {env : Env} (hc : env.cache = none) (ha : env.api = none)
    (f t : String)
    (hf : (dlookup f fallback_rates).isSome)
    (ht : (dlookup t fallback_rates).isSome) :
    get_exchange_rate env f t =
      Except.ok ((dlookup t fallback_rates).getD 0 /
                 (dlookup f fallback_rates).getD 0) := by
  obtain ⟨vf, hvf⟩ := Option.isSome_iff_exists.mp hf
  obtain ⟨vt, hvt⟩ := Option.isSome_iff_exists.mp ht
  have hvf0 : vf ≠ 0 := ne_of_gt (dlookup_fallback_pos hvf)
  simp only [get_exchange_rate]
  rw [get_all_rates_offline hc ha, hvf, hvt]
  simp only [Option.getD_some, Option.isSome_some, and_true]
  split_ifs with h1 h2 h3
  · rw [h1] at hvf
    have hv : vf = vt := Option.some.inj (hvf.symm.trans hvt)
    rw [← hv, div_self hvf0]
  · rw [h2] at hvf
    have hv : vf = 1 := (Option.some.inj (dlookup_fallback_usd.symm.trans hvf)).symm
    rw [hv, div_one]
  · rw [h3] at hvt
    have hv : vt = 1 := (Option.some.inj (dlookup_fallback_usd.symm.trans hvt)).symm
    rw [hv]
    simp [pyDiv, hvf0]
  · simp [pyDiv, hvf0]

/-! ### C1: exception freedom of get_exchange_rate -/

/-- Counterexample to C1: a fresh cache whose table maps EUR to 0 makes
`get_exchange_rate("EUR", "USD")` evaluate `1.0 / 0.0`, which raises
`ZeroDivisionError` in Python float arithmetic. -/
theorem get_exchange_rate_zero_rate_raises :
    get_exchange_rate envZeroEUR "EUR" "USD" = Except.error PyErr.zeroDivision := by
  with_unfolding_all decide

/-- C1 (amended): `get_exchange_rate` returns a value for every state of the
cache, endpoints and libraries, provided the effective rate table does not
map the source currency to 0 (the only divisors are that entry; the static
fallback tier catches its own `ZeroDivisionError`). -/
theorem get_exchange_rate_total_of_nonzero (env : Env)
    (from_currency to_currency : String)
    (h : dlookup from_currency (get_all_rates env) ≠ some 0) :
    ∃ q, get_exchange_rate env from_currency to_currency = Except.ok q := by
  simp only [get_exchange_rate]
  split_ifs with h1 h2 h3 h4
  · exact ⟨1, rfl⟩
  · exact ⟨_, rfl⟩
  · obtain ⟨v, hv⟩ := Option.isSome_iff_exists.mp h3.2
    have hv0 : v ≠ 0 := fun h0 => h (by rw [hv, h0])
    exact ⟨1 / v, by rw [hv]; simp [pyDiv, hv0]⟩
  · obtain ⟨v, hv⟩ := Option.isSome_iff_exists.mp h4.1
    have hv0 : v ≠ 0 := fun h0 => h (by rw [hv, h0])
    obtain ⟨w, hw⟩ := Option.isSome_iff_exists.mp h4.2
    exact ⟨w / v, by rw [hv, hw]; simp [pyDiv, hv0]⟩
  · exact forex_tier_ok env from_currency to_currency

/-- Witness for C1 (amended) in the all-sources-down state. -/
theorem get_exchange_rate_total_of_nonzero_w :
    ∃ q, get_exchange_rate envNoNet "GBP" "JPY" = Except.ok q :=
  get_exchange_rate_total_of_nonzero envNoNet "GBP" "JPY"
    (by with_unfolding_all decide)

/-! ### C2: the fallback chain -/

/-- Counterexample to C2: with the cache absent and every endpoint failed,
the forex library offers the (usable, positive) rate 2 for USD→EUR, yet
`get_exchange_rate` returns the static-table cross rate 0.852 — the library
tier is never reached, because `get_all_rates` already returned the fallback
table. -/
theorem get_exchange_rate_library_not_consulted :
    envLibOnly.cache = none ∧ envLibOnly.api = none ∧ envLibOnly.forex = some 2
    ∧ get_exchange_rate envLibOnly "USD" "EUR" = Except.ok 0.852
    ∧ get_exchange_rate envLibOnly "USD" "EUR" ≠ Except.ok 2 := by
  refine ⟨rfl, rfl, rfl, ?_, ?_⟩ <;> with_unfolding_all decide

/-- C2 (amended): when the cache is absent/stale and every endpoint fails,
`get_all_rates` itself returns the static fallback table, so pairs present in
that table are resolved at the table tier — regardless of the libraries; the
libraries are consulted only when the needed currency is missing from the
effective table, and if both libraries also fail, `_get_fallback_rate`
returns 1.0 for a pair not fully covered by the static table. -/
theorem get_exchange_rate_fallback_chain (env : Env) (f t : String)
    (hc : env.cache = none) (ha : env.api = none) :
    ((dlookup f fallback_rates).isSome → (dlookup t fallback_rates).isSome →
      get_exchange_rate env f t =
        Except.ok ((dlookup t fallback_rates).getD 0 /
                   (dlookup f fallback_rates).getD 0))
    ∧ (¬ ((dlookup f fallback_rates).isSome ∧ (dlookup t fallback_rates).isSome) →
        f ≠ t →
        (∀ r, env.forex = some r → 0 < r →
          get_exchange_rate env f t = Except.ok r)
        ∧ (env.forex = none → env.libConv = none →
          get_exchange_rate env f t = Except.ok 1)) := by
  constructor
  · intro hf ht
    exact cross_of_offline hc ha f t hf ht
  · intro hmiss hft
    have hreach : get_exchange_rate env f t = forex_tier env f t := by
      simp only [get_exchange_rate]
      rw [get_all_rates_offline hc ha, if_neg hft, if_neg, if_neg, if_neg]
      · exact hmiss
      · exact fun hh => hmiss ⟨hh.2, by rw [hh.1, dlookup_fallback_usd]; rfl⟩
      · exact fun hh => hmiss ⟨by rw [hh.1, dlookup_fallback_usd]; rfl, hh.2⟩
    have hfb : get_fallback_rate f t = 1 := by
      unfold get_fallback_rate
      cases hf' : dlookup f fallback_rates with
      | none => cases ht' : dlookup t fallback_rates <;> rfl
      | some vf =>
        cases ht' : dlookup t fallback_rates with
        | none => rfl
        | some vt =>
          exact absurd ⟨by rw [hf']; rfl, by rw [ht']; rfl⟩ hmiss
    constructor
    · intro r hr hrpos
      rw [hreach]
      unfold forex_tier
      rw [hr]
      simp only
      rw [if_pos hrpos]
    · intro hfx hlc
      rw [hreach]
      unfold forex_tier converter_tier
      rw [hfx, hlc]
      simp only
      rw [hfb]

/-- Witness for C2 (amended): USD→EUR offline resolves from the fallback
table. -/
theorem get_exchange_rate_fallback_chain_w :
    get_exchange_rate envNoNet "USD" "EUR" =
      Except.ok ((dlookup "EUR" fallback_rates).getD 0 /
                 (dlookup "USD" fallback_rates).getD 0) :=
  (get_exchange_rate_fallback_chain envNoNet "USD" "EUR" rfl rfl).1
    (by with_unfolding_all decide) (by with_unfolding_all decide)

/-! ### C3: offline cross-rate algebra -/

/-- C3: offline (no cache, no endpoint, no library), any two currencies of
the populated fallback table resolve to `fallback[B] / fallback[A]`, and the
two directions are exact reciprocals (exact rational arithmetic, hence within
any floating tolerance). -/
theorem get_exchange_rate_fallback_cross_rate (env : Env) (A B : String)
    (hc : env.cache = none) (ha : env.api = none)
    (hfx : env.forex = none) (hlc : env.libConv = none)
    (hA : (dlookup A fallback_rates).isSome)
    (hB : (dlookup B fallback_rates).isSome) :
    get_exchange_rate env A B =
      Except.ok ((dlookup B fallback_rates).getD 0 /
                 (dlookup A fallback_rates).getD 0)
    ∧ get_exchange_rate env B A =
      Except.ok ((dlookup A fallback_rates).getD 0 /
                 (dlookup B fallback_rates).getD 0)
    ∧ (dlookup A fallback_rates).getD 0 / (dlookup B fallback_rates).getD 0 =
        1 / ((dlookup B fallback_rates).getD 0 /
             (dlookup A fallback_rates).getD 0) :=
  ⟨cross_of_offline hc ha A B hA hB,
   cross_of_offline hc ha B A hB hA,
   by rw [one_div_div]⟩

/-- Witness for C3: converting 100 USD to EUR offline uses the fallback rate
0.8520 and yields 85.20. -/
theorem get_exchange_rate_fallback_cross_rate_w :
    get_exchange_rate envNoNet "USD" "EUR" = Except.ok 0.852
    ∧ converted_amount 100 0.852 = 85.2 := by
  constructor
  · have h := (get_exchange_rate_fallback_cross_rate envNoNet "USD" "EUR"
      rfl rfl rfl rfl (by with_unfolding_all decide)
      (by with_unfolding_all decide)).1
    rw [h]
    with_unfolding_all decide
  · with_unfolding_all decide

/-! ### C7: cache validity window -/

/-- C7: `_load_cache` returns a cache stamped at `T` exactly when it is read
strictly less than 300 seconds after `T`, and returns the empty cache when
the file is missing or malformed. -/
theorem load_cache_validity_window (t now : ℤ) (rates : RateDict) :
    (now - t < 300 →
      load_cache (CacheFileState.parsed (some t) rates) now = some (t, rates))
    ∧ (300 ≤ now - t →
      load_cache (CacheFileState.parsed (some t) rates) now = none)
    ∧ load_cache CacheFileState.missing now = none
    ∧ load_cache CacheFileState.malformed now = none := by
  refine ⟨?_, ?_, rfl, rfl⟩
  · intro h
    simp [load_cache, CACHE_DURATION, h]
  · intro h
    have h' : ¬ (now - t < 300) := by omega
    simp [load_cache, CACHE_DURATION, h']

/-- Witness for C7: a cache written at T = 0 is returned at T+299s and
rejected at T+301s. -/
theorem load_cache_validity_window_w :
    load_cache (CacheFileState.parsed (some 0) []) 299 = some (0, [])
    ∧ load_cache (CacheFileState.parsed (some 0) []) 301 = none :=
  ⟨(load_cache_validity_window 0 299 []).1 (by decide),
   (load_cache_validity_window 0 301 []).2.1 (by decide)⟩

/-! ### C8: identity rate -/

/-- C8: for every currency code `A` and every state of the cache, the remote
endpoints and the optional libraries, `get_exchange_rate A A` is exactly 1.0;
the result does not depend on `env`, reflecting that the early return
performs no lookup. -/
theorem get_exchange_rate_same_currency (env : Env) (A : String) :
    get_exchange_rate env A A = Except.ok 1 := by
  simp [get_exchange_rate]

/-! ### C9: get_recent_history -/

/-- Counterexample to C9 at `n = 0` on a nonempty log: the claim demands the
last 0 records (the empty sequence, of length `min 0 1 = 0`), but Python's
`history[-0:]` slice is the whole list. -/
theorem get_recent_history_zero_limit_cex :
    get_recent_history [sampleRec] 0 = [sampleRec]
    ∧ (get_recent_history [sampleRec] 0).length ≠ min 0 [sampleRec].length := by
  refine ⟨?_, ?_⟩ <;> simp [get_recent_history]

/-- C9 (amended): for every log and every `n ≥ 1`, `get_recent_history n`
returns the final segment of the log of length `min n (length log)` — the
last `n` records in insertion order (most recent last), or the whole log
when it has fewer than `n` records. -/
theorem get_recent_history_last_n (h : List ConversionRecord) (n : Nat)
    (hn : 1 ≤ n) :
    get_recent_history h n = h.drop (h.length - n)
    ∧ h.take (h.length - n) ++ get_recent_history h n = h
    ∧ (get_recent_history h n).length = min n h.length := by
  have h1 : get_recent_history h n = h.drop (h.length - n) := by
    by_cases hh : h = []
    · subst hh; simp [get_recent_history]
    · have hn0 : n ≠ 0 := by omega
      simp [get_recent_history, hh, hn0]
  refine ⟨h1, ?_, ?_⟩
  · rw [h1]
    exact List.take_append_drop _ h
  · rw [h1, List.length_drop]
    rcases Nat.le_total n h.length with hle | hle
    · rw [min_eq_left hle]; omega
    · rw [min_eq_right hle]; omega

/-- Witness for C9 (amended) at a one-record log and `n = 1`. -/
theorem get_recent_history_last_n_w :
    get_recent_history [sampleRec] 1 = [sampleRec].drop ([sampleRec].length - 1) :=
  (get_recent_history_last_n [sampleRec] 1 (by decide)).1

/-! ### C6: the history cap -/

lemma add_conversion_length_le {h : List ConversionRecord} (r : ConversionRecord)
    (hh : h.length ≤ 100) : (add_conversion h r).length ≤ 100 := by
  simp only [add_conversion, MAX_HISTORY_ENTRIES]
  split
  · rw [List.length_drop]
    omega
  · rename_i hle
    simp only [List.length_append, List.length_cons, List.length_nil] at hle ⊢
    omega

/-- Iterated `add_conversion` keeps exactly the most recent 100 records:
the result is the final segment of everything ever appended, oldest dropped
first. -/
lemma foldl_add_conversion :
    ∀ (rs : List ConversionRecord) (h : List ConversionRecord), h.length ≤ 100 →
      rs.foldl add_conversion h = (h ++ rs).drop ((h ++ rs).length - 100) := by
  intro rs
  induction rs with
  | nil =>
    intro h hh
    rw [List.foldl_nil, List.append_nil]
    have h0 : h.length - 100 = 0 := by omega
    rw [h0, List.drop_zero]
  | cons r rs ih =>
    intro h hh
    rw [List.foldl_cons]
    by_cases hc : h.length + 1 ≤ 100
    · have har : add_conversion h r = h ++ [r] := by
        simp only [add_conversion, MAX_HISTORY_ENTRIES]
        rw [if_neg]
        simp only [not_lt, List.length_append, List.length_cons, List.length_nil]
        omega
      rw [har, ih (h ++ [r]) (by simp only [List.length_append,
        List.length_cons, List.length_nil]; omega)]
      rw [← List.append_cons]
    · have hlen : h.length = 100 := by omega
      have har : add_conversion h r = (h ++ [r]).drop 1 := by
        simp only [add_conversion, MAX_HISTORY_ENTRIES]
        rw [if_pos]
        · congr 1
          simp [hlen]
        · simp [hlen]
      have hdlen : ((h ++ [r]).drop 1).length ≤ 100 := by
        rw [List.length_drop]
        simp [hlen]
      rw [har, ih _ hdlen,
        ← List.drop_append_of_le_length
          (show 1 ≤ (h ++ [r]).length by simp),
        List.drop_drop, ← List.append_cons]
      congr 1
      simp only [List.length_drop, List.length_append, List.length_cons,
        List.length_nil]
      omega

lemma applyOps_length_le :
    ∀ (ops : List HistoryOp) (h : List ConversionRecord), h.length ≤ 100 →
      (applyOps h ops).length ≤ 100 := by
  intro ops
  induction ops with
  | nil =>
    intro h hh
    simpa [applyOps] using hh
  | cons op ops ih =>
    intro h hh
    have hstep : applyOps h (op :: ops) = applyOps (applyOp h op) ops := rfl
    rw [hstep]
    cases op with
    | add r => exact ih _ (add_conversion_length_le r hh)
    | clear => exact ih _ (by simp [applyOp, clear_history])

/-- C6: starting from a log of length ≤ 100, every sequence of
`add_conversion` / `clear_history` operations keeps the length ≤ 100, and
appending 105 records to an empty log keeps exactly the last 100 in
insertion order (the oldest 5 are dropped). -/
theorem history_cap_invariant (h : List ConversionRecord) (ops : List HistoryOp)
    (rs : List ConversionRecord) (hh : h.length ≤ 100) (hrs : rs.length = 105) :
    (applyOps h ops).length ≤ 100
    ∧ rs.foldl add_conversion [] = rs.drop 5 := by
  refine ⟨applyOps_length_le ops h hh, ?_⟩
  have hfold := foldl_add_conversion rs [] (by simp)
  simp only [List.nil_append] at hfold
  rw [hfold, hrs]

/-- Witness for C6 with 105 concrete records. -/
theorem history_cap_invariant_w :
    (applyOps [] []).length ≤ 100
    ∧ (List.replicate 105 sampleRec).foldl add_conversion [] =
        (List.replicate 105 sampleRec).drop 5 :=
  history_cap_invariant [] [] (List.replicate 105 sampleRec) (by simp) (by simp)

/-! ### Sorting lemmas for the trend analyzer -/

lemma insertPoint_perm (pt : RatePoint) :
    ∀ l : List RatePoint, List.Perm (insertPoint pt l) (pt :: l) := by
  intro l
  induction l with
  | nil => exact List.Perm.refl _
  | cons q qs ih =>
    rw [insertPoint]
    split
    · exact (ih.cons q).trans (List.Perm.swap pt q qs)
    · exact List.Perm.refl _

lemma sortPoints_perm : ∀ l : List RatePoint, List.Perm (sortPoints l) l := by
  intro l
  induction l with
  | nil => exact List.Perm.refl _
  | cons pt pts ih =>
    rw [sortPoints]
    exact (insertPoint_perm pt (sortPoints pts)).trans (ih.cons pt)

lemma insertPoint_pairwise (pt : RatePoint) :
    ∀ l : List RatePoint, l.Pairwise (fun a b => a.time ≤ b.time) →
      (insertPoint pt l).Pairwise (fun a b => a.time ≤ b.time) := by
  intro l
  induction l with
  | nil =>
    intro _
    simp [insertPoint]
  | cons q qs ih =>
    intro hl
    rw [List.pairwise_cons] at hl
    rw [insertPoint]
    split
    · rename_i hq
      rw [List.pairwise_cons]
      refine ⟨?_, ih hl.2⟩
      intro b hb
      rcases List.mem_cons.mp ((insertPoint_perm pt qs).mem_iff.mp hb) with hbp | hbq
      · rw [hbp]
        exact le_of_lt hq
      · exact hl.1 b hbq
    · rename_i hq
      rw [List.pairwise_cons]
      refine ⟨?_, List.pairwise_cons.mpr hl⟩
      intro b hb
      rcases List.mem_cons.mp hb with hbq | hbq
      · rw [hbq]
        exact le_of_not_lt hq
      · exact le_trans (le_of_not_lt hq) (hl.1 b hbq)

lemma sortPoints_pairwise :
    ∀ l : List RatePoint,
      (sortPoints l).Pairwise (fun a b => a.time ≤ b.time) := by
  intro l
  induction l with
  | nil => simp [sortPoints]
  | cons pt pts ih =>
    rw [sortPoints]
    exact insertPoint_pairwise pt _ ih

/-- Stability of the modelled sort: for every time value, the subsequence of
points carrying that time is unchanged — together with `sortPoints_pairwise`
and `sortPoints_perm` this pins `sortPoints` down as exactly the stable sort
Python's `list.sort` performs on the time key. -/
lemma sortPoints_filter_time (t : ℤ) :
    ∀ l : List RatePoint,
      (sortPoints l).filter (fun q => decide (q.time = t)) =
        l.filter (fun q => decide (q.time = t)) := by
  have hins : ∀ (pt : RatePoint) (l : List RatePoint),
      (insertPoint pt l).filter (fun q => decide (q.time = t)) =
        ((pt :: l).filter (fun q => decide (q.time = t))) := by
    intro pt l
    induction l with
    | nil => rfl
    | cons q qs ih =>
      rw [insertPoint]
      split
      · rename_i hq
        by_cases hqt : q.time = t
        · by_cases hpt : pt.time = t
          · exfalso
            omega
          · simp [List.filter_cons, hqt, hpt, ih]
        · by_cases hpt : pt.time = t
          · simp [List.filter_cons, hqt, hpt, ih]
          · simp [List.filter_cons, hqt, hpt, ih]
      · rfl
  intro l
  induction l with
  | nil => rfl
  | cons pt pts ih =>
    rw [sortPoints, hins]
    simp only [List.filter_cons]
    split <;> rw [ih]

/-! ### Per-group trend facts -/

lemma trendOfPoints_eq (pts : List RatePoint) :
    trendOfPoints pts =
      if oldestRate pts = 0 then Except.error PyErr.zeroDivision
      else Except.ok (trendPayload pts) := rfl

lemma oldestRate_pos (pts : List RatePoint) (hne : pts ≠ [])
    (hpos : ∀ q ∈ pts, 0 < q.rate) : 0 < oldestRate pts := by
  have hlen := (sortPoints_perm pts).length_eq
  cases hsp : sortPoints pts with
  | nil =>
    rw [hsp] at hlen
    simp only [List.length_nil] at hlen
    exact absurd (List.length_eq_zero.mp hlen.symm) hne
  | cons q l' =>
    have hq : q ∈ pts :=
      (sortPoints_perm pts).mem_iff.mp (by rw [hsp]; exact List.mem_cons_self _ _)
    unfold oldestRate
    rw [hsp]
    simp only [List.head?_cons, Option.getD_some]
    exact hpos q hq

lemma trendOfPoints_ok (pts : List RatePoint) (hne : pts ≠ [])
    (hpos : ∀ q ∈ pts, 0 < q.rate) :
    trendOfPoints pts = Except.ok (trendPayload pts) := by
  rw [trendOfPoints_eq, if_neg (ne_of_gt (oldestRate_pos pts hne hpos))]

/-! ### Grouping lemmas -/

lemma dlookup_addPoint (k p : String) (pt : RatePoint) :
    ∀ g : List (String × List RatePoint),
      dlookup k (addPoint g p pt) =
        if k = p then some ((dlookup k g).getD [] ++ [pt]) else dlookup k g := by
  intro g
  induction g with
  | nil =>
    by_cases hkp : k = p
    · subst hkp
      simp [addPoint, dlookup]
    · simp [addPoint, dlookup, hkp]
  | cons e g' ih =>
    obtain ⟨a, l⟩ := e
    rw [addPoint]
    by_cases hap : a = p
    · subst hap
      rw [if_pos rfl]
      by_cases hka : k = a
      · subst hka
        simp [dlookup]
      · simp [dlookup, hka]
    · rw [if_neg hap]
      by_cases hka : k = a
      · subst hka
        have hkp : k ≠ p := hap
        simp [dlookup, hkp]
      · simp only [dlookup, if_neg hka]
        rw [ih]

lemma keys_addPoint (p : String) (pt : RatePoint) :
    ∀ g : List (String × List RatePoint),
      (addPoint g p pt).map Prod.fst =
        if p ∈ g.map Prod.fst then g.map Prod.fst
        else g.map Prod.fst ++ [p] := by
  intro g
  induction g with
  | nil => simp [addPoint]
  | cons e g' ih =>
    obtain ⟨a, l⟩ := e
    rw [addPoint]
    by_cases hap : a = p
    · subst hap
      simp [List.map_cons]
    · rw [if_neg hap]
      have hpa : p ≠ a := fun h => hap h.symm
      simp only [List.map_cons, ih]
      by_cases hp : p ∈ g'.map Prod.fst
      · simp [hp, hpa]
      · simp [hp, hpa]

lemma groupRates_keys_nodup (recs : List ConversionRecord) :
    ((groupRates recs).map Prod.fst).Nodup := by
  suffices h : ∀ (rl : List ConversionRecord) (g : List (String × List RatePoint)),
      (g.map Prod.fst).Nodup →
      ((rl.foldl (fun g c => addPoint g (pairKey c) (toPoint c)) g).map
        Prod.fst).Nodup by
    exact h recs [] (by simp)
  intro rl
  induction rl with
  | nil =>
    intro g hg
    simpa using hg
  | cons c rl ih =>
    intro g hg
    rw [List.foldl_cons]
    apply ih
    rw [keys_addPoint]
    split
    · exact hg
    · rename_i hnp
      simp [List.nodup_append, hg, hnp]

lemma dlookup_foldl_addPoint (p : String) :
    ∀ (recs : List ConversionRecord) (g : List (String × List RatePoint)),
      dlookup p (recs.foldl (fun g c => addPoint g (pairKey c) (toPoint c)) g) =
        match dlookup p g with
        | some l =>
          some (l ++ (recs.filter (fun c => decide (pairKey c = p))).map toPoint)
        | none =>
          match (recs.filter (fun c => decide (pairKey c = p))).map toPoint with
          | [] => none
          | pts => some pts := by
  intro recs
  induction recs with
  | nil =>
    intro g
    rw [List.foldl_nil]
    cases hg : dlookup p g with
    | some l => simp
    | none => simp
  | cons c recs ih =>
    intro g
    rw [List.foldl_cons, ih, dlookup_addPoint]
    by_cases hc : pairKey c = p
    · rw [if_pos hc.symm, List.filter_cons_of_pos (by simp [hc])]
      simp only [List.map_cons]
      cases hg : dlookup p g with
      | some l => simp
      | none => simp
    · rw [if_neg (fun h => hc h.symm),
        List.filter_cons_of_neg (by simp [hc])]

lemma dlookup_groupRates (recs : List ConversionRecord) (p : String) :
    dlookup p (groupRates recs) =
      match pairPointsOf recs p with
      | [] => none
      | pts => some pts := by
  have h := dlookup_foldl_addPoint p recs []
  simpa [groupRates, dlookup, pairPointsOf] using h

lemma mem_groupRates {recs : List ConversionRecord}
    {e : String × List RatePoint} (he : e ∈ groupRates recs) :
    ∀ q ∈ e.2, ∃ c ∈ recs, q = toPoint c := by
  have hl : dlookup e.1 (groupRates recs) = some e.2 :=
    dlookup_of_mem_nodup (groupRates_keys_nodup recs) (Prod.mk.eta ▸ he)
  rw [dlookup_groupRates] at hl
  have he2 : e.2 = pairPointsOf recs e.1 := by
    cases hX : pairPointsOf recs e.1 with
    | nil =>
      rw [hX] at hl
      exact Option.noConfusion hl
    | cons a l =>
      rw [hX] at hl
      exact (Option.some.inj hl).symm
  intro q hq
  rw [he2] at hq
  simp only [pairPointsOf] at hq
  obtain ⟨c, hcf, hcq⟩ := List.mem_map.mp hq
  exact ⟨c, List.mem_of_mem_filter hcf, hcq.symm⟩

/-! ### The trends loop -/

lemma trendsOf_ok_lookup :
    ∀ groups : List (String × List RatePoint),
      (groups.map Prod.fst).Nodup →
      (∀ e ∈ groups, ∀ q ∈ e.2, 0 < q.rate) →
      ∃ ts, trendsOf groups = Except.ok ts ∧
        ∀ p, dlookup p ts =
          match dlookup p groups with
          | some pts => if 2 ≤ pts.length then some (trendPayload pts) else none
          | none => none := by
  intro groups
  induction groups with
  | nil =>
    intro _ _
    exact ⟨[], rfl, fun p => rfl⟩
  | cons e rest ih =>
    obtain ⟨k, pts⟩ := e
    intro hnd hpos
    simp only [List.map_cons, List.nodup_cons] at hnd
    obtain ⟨ts', hok', hlk'⟩ :=
      ih hnd.2 (fun e he => hpos e (List.mem_cons_of_mem _ he))
    by_cases h2 : 2 ≤ pts.length
    · have hne : pts ≠ [] := by
        intro h
        rw [h] at h2
        simp at h2
      have htp : trendOfPoints pts = Except.ok (trendPayload pts) :=
        trendOfPoints_ok pts hne (hpos (k, pts) (List.mem_cons_self _ _))
      refine ⟨(k, trendPayload pts) :: ts', ?_, ?_⟩
      · rw [trendsOf, if_pos h2, htp, hok']
      · intro p
        simp only [dlookup]
        by_cases hpk : p = k
        · rw [if_pos hpk, if_pos hpk]
          simp [h2]
        · rw [if_neg hpk, if_neg hpk]
          exact hlk' p
    · refine ⟨ts', ?_, ?_⟩
      · rw [trendsOf, if_neg h2]
        exact hok'
      · intro p
        simp only [dlookup]
        by_cases hpk : p = k
        · rw [if_pos hpk, hlk' p,
            dlookup_eq_none (by rw [hpk]; exact hnd.1)]
          simp [h2]
        · rw [if_neg hpk]
          exact hlk' p

/-! ### C4: functional correctness of get_currency_trends -/

/-- C4: under the data-model invariant that recorded rates are positive, the
trends call succeeds, every pair with at least 2 in-window records is
reported with the rounded percent change, the threshold-classified direction
and the sample count, pairs with fewer in-window records are omitted, and the
per-pair point list is sorted by timestamp ascending (a permutation of the
pair's in-window records). -/
theorem get_currency_trends_correct (history : List ConversionRecord)
    (now days : ℤ) (p : String)
    (hpos : ∀ r ∈ history, 0 < r.exchange_rate) :
    ∃ ts, get_currency_trends history now days = Except.ok ts
      ∧ (2 ≤ (pairPoints history now days p).length →
          dlookup p ts = some (trendPayload (pairPoints history now days p)))
      ∧ ((pairPoints history now days p).length < 2 → dlookup p ts = none)
      ∧ (sortPoints (pairPoints history now days p)).Pairwise
          (fun a b => a.time ≤ b.time)
      ∧ List.Perm (sortPoints (pairPoints history now days p))
          (pairPoints history now days p) := by
  by_cases hh : history = []
  · refine ⟨[], by simp [get_currency_trends, hh], ?_, fun _ => rfl,
      sortPoints_pairwise _, sortPoints_perm _⟩
    intro h2
    exfalso
    have hempty : pairPoints history now days p = [] := by
      simp [pairPoints, pairPointsOf, recentOf, hh]
    rw [hempty] at h2
    simp at h2
  · by_cases hr : (recentOf history now days).length < 2
    · have hpp : (pairPoints history now days p).length < 2 := by
        calc (pairPoints history now days p).length
            = ((recentOf history now days).filter
                (fun c => decide (pairKey c = p))).length := by
              simp [pairPoints, pairPointsOf]
          _ ≤ (recentOf history now days).length := List.length_filter_le _ _
          _ < 2 := hr
      refine ⟨[], ?_, ?_, fun _ => rfl, sortPoints_pairwise _, sortPoints_perm _⟩
      · simp only [get_currency_trends, if_neg hh]
        rw [if_pos hr]
      · intro h2
        omega
    · have hposr : ∀ e ∈ groupRates (recentOf history now days),
          ∀ q ∈ e.2, 0 < q.rate := by
        intro e he q hq
        obtain ⟨c, hc, hcq⟩ := mem_groupRates he q hq
        rw [hcq]
        exact hpos c (List.mem_of_mem_filter hc)
      obtain ⟨ts, hok, hlk⟩ :=
        trendsOf_ok_lookup _ (groupRates_keys_nodup _) hposr
      have hget : get_currency_trends history now days = Except.ok ts := by
        simp only [get_currency_trends, if_neg hh]
        rw [if_neg hr]
        exact hok
      have hsc : dlookup p (groupRates (recentOf history now days)) =
          match pairPoints history now days p with
          | [] => none
          | pts => some pts :=
        dlookup_groupRates (recentOf history now days) p
      refine ⟨ts, hget, ?_, ?_, sortPoints_pairwise _, sortPoints_perm _⟩
      · intro h2
        have hne : pairPoints history now days p ≠ [] := by
          intro h
          rw [h] at h2
          simp at h2
        have hsome : dlookup p (groupRates (recentOf history now days)) =
            some (pairPoints history now days p) := by
          rw [hsc]
          cases hX : pairPoints history now days p with
          | nil => exact absurd hX hne
          | cons a l => rfl
        rw [hlk p, hsome]
        simp [h2]
      · intro hlt
        rw [hlk p]
        cases hX : pairPoints history now days p with
        | nil =>
          have hnone : dlookup p (groupRates (recentOf history now days)) =
              none := by
            rw [hsc, hX]
          rw [hnone]
        | cons a l =>
          have hsome : dlookup p (groupRates (recentOf history now days)) =
              some (a :: l) := by
            rw [hsc, hX]
          rw [hsome]
          rw [hX] at hlt
          have h2' : ¬ 2 ≤ (a :: l).length := by omega
          show (if 2 ≤ (a :: l).length then some (trendPayload (a :: l))
            else none) = none
          rw [if_neg h2']

/-- Witness for C4: the spec scenario — two in-window USD/EUR samples at
rates 0.85 then 0.80 yield change_percent −5.88 and direction "falling" with
2 data points. -/
theorem get_currency_trends_correct_w :
    ∃ ts, get_currency_trends histTrendW 7200 7 = Except.ok ts
      ∧ dlookup "USD/EUR" ts =
          some { change_percent := -5.88, direction := "falling",
                 oldest_rate := 0.85, newest_rate := 0.80, data_points := 2 } := by
  obtain ⟨ts, hok, h2, _, _, _⟩ :=
    get_currency_trends_correct histTrendW 7200 7 "USD/EUR"
      (by with_unfolding_all decide)
  refine ⟨ts, hok, ?_⟩
  rw [h2 (by with_unfolding_all decide)]
  with_unfolding_all decide

/-! ### C5: the missing division-by-zero guard -/

/-- C5: contrary to the claim, `get_currency_trends` performs no guard on a
zero oldest rate: on a history whose in-window USD/EUR group has oldest rate
0, the percent-change division raises `ZeroDivisionError` (escaping
`get_currency_trends`), instead of reporting the pair as stable or excluding
it. -/
theorem get_currency_trends_zero_oldest_raises :
    get_currency_trends histZeroOldest 7200 7 =
      Except.error PyErr.zeroDivision := by
  with_unfolding_all decide

/-! ### C10: clear_history is not atomic w.r.t. persistence failure -/

/-- C10: after `clear_history`, the in-memory log is empty even when the save
fails and the call returns `False`; `get_recent_history` on the resulting
state is empty for every limit. -/
theorem clear_history_clears_despite_save_failure
    (h : List ConversionRecord) (n : Nat) :
    (clear_history h false).2 = false
    ∧ (clear_history h false).1 = []
    ∧ get_recent_history (clear_history h false).1 n = [] := by
  refine ⟨rfl, rfl, ?_⟩
  simp [clear_history, get_recent_history]

end CurrencyConvertify
